import Mathlib

/-
Shallow embedding of the browser-local media cache of this repository:
the class ImageStorage (file image-storage.ts) together with the
pass-through guard of its caller ImageMigration (file image-migration.ts).

Modelling choices, stated once:
  * localStorage under the single key fal_local_images is modelled as a
    Cell: absent, unparseable content of a known encoded byte length, or a
    parsed map.  The map is an association list in insertion order, which
    is the enumeration order of a JS object with non-numeric string keys.
  * JSON.parse throwing on corrupt content and the surrounding catch
    blocks are modelled by getStoredImages returning the empty list on a
    corrupt cell.
  * localStorage.setItem is modelled by setItemQ: the write succeeds iff
    the encoded byte length of the serialized map is at most the quota,
    otherwise it throws QuotaExceededError, modelled as Option.none.
  * Timestamps are epoch milliseconds (Nat).  The source stores an
    ISO-8601 string and always compares via new Date(s).getTime(); a
    serialized ISO-8601 timestamp is always 24 characters, hence its JSON
    value occupies a constant 26 bytes.
  * The byte length of JSON.stringify of the map is modelled exactly
    (braces, quotes, colons, commas, string escaping, decimal numerals),
    matching new Blob([s]).size which counts UTF-8 bytes.
  * fetch and FileReader are modelled by a FetchOutcome oracle passed to
    each download.  A FileReader failure rejects the promise returned by
    downloadImageAsDataUrl, which is NOT caught by the try/catch of that
    function (the function has already returned the promise); it is
    caught by the awaiting caller downloadAndStoreImage.  This is
    modelled by the Except error branch.
  * All JS arithmetic in scope is exact: the float products
    52428800 * 0.8 and 52428800 * 0.6 compare against integers exactly
    like the integers 41943040 and 31457280 do.
  * downloadAndStoreImage returns (result, new cell, number of fetch
    calls performed).
-/

namespace MediaCache

/-- One cached entry, field for field the LocalImageData interface of the
source: originalUrl, localDataUrl, contentType, size, downloadedAt. -/
structure LocalImageData where
  originalUrl : String
  localDataUrl : String
  contentType : String
  size : Nat
  downloadedAt : Nat
deriving DecidableEq

/-- The 50 MB limit of the source: MAX_STORAGE_SIZE = 50 * 1024 * 1024. -/
def MAX_STORAGE_SIZE : Nat := 50 * 1024 * 1024

/-- State of the localStorage slot under the key fal_local_images. -/
inductive Cell where
  | empty : Cell
  | corrupt (len : Nat) : Cell
  | valid (m : List (String × LocalImageData)) : Cell
deriving DecidableEq

/-- Bytes contributed by one character inside a JSON string literal:
quote and backslash are escaped to two bytes, common control characters
to two, the remaining control characters to a six byte \uXXXX escape,
every other character to its UTF-8 encoding. -/
def charJsonLen (c : Char) : Nat :=
  if c = '"' ∨ c = '\\' then 2
  else if c.toNat < 32 then
    if c = '\x08' ∨ c = '\x09' ∨ c = '\x0a' ∨ c = '\x0c' ∨ c = '\x0d' then 2 else 6
  else c.utf8Size

/-- Encoded byte length of a JSON string literal: two quotes plus the
escaped characters. -/
def jsonStrLen (s : String) : Nat :=
  2 + (s.data.map charJsonLen).sum

/-- Decimal digit count of a natural number (fuelled structural
recursion so that it reduces in the kernel). -/
def decLenAux : Nat → Nat → Nat
  | 0, _ => 1
  | fuel + 1, n => if n < 10 then 1 else 1 + decLenAux fuel (n / 10)

/-- Decimal digit count of a natural number. -/
def decLen (n : Nat) : Nat := decLenAux n n

/-- Encoded byte length of one serialized entry value
{"originalUrl":…,"localDataUrl":…,"contentType":…,"size":…,"downloadedAt":…}:
the fixed punctuation and key text occupy 71 bytes, the ISO-8601
timestamp value 26 bytes. -/
def entryJsonLen (e : LocalImageData) : Nat :=
  71 + jsonStrLen e.originalUrl + jsonStrLen e.localDataUrl
     + jsonStrLen e.contentType + decLen e.size + 26

/-- Encoded byte length of one key/value pair inside the map: quoted key,
colon, entry value. -/
def kvCost (k : String) (e : LocalImageData) : Nat :=
  jsonStrLen k + 1 + entryJsonLen e

/-- Encoded byte length of JSON.stringify of the whole map: two braces,
the pairs, and a comma between consecutive pairs. -/
def mapJsonLen (m : List (String × LocalImageData)) : Nat :=
  if m.isEmpty then 2
  else 1 + (m.map (fun kv => kvCost kv.1 kv.2 + 1)).sum

/-- Reading the raw slot: getStoredImages, with JSON.parse failures and a
missing item both collapsing to the empty map. -/
def getStoredImages (c : Cell) : List (String × LocalImageData) :=
  match c with
  | Cell.empty => []
  | Cell.corrupt _ => []
  | Cell.valid m => m

/-- JS object property access storedImages[originalUrl]. -/
def lookupEntry (m : List (String × LocalImageData)) (u : String) :
    Option LocalImageData :=
  (m.find? (fun kv => kv.1 = u)).map (fun kv => kv.2)

/-- getStoredImage: read the map, look the URL up, null on absence. -/
def getStoredImage (c : Cell) (u : String) : Option LocalImageData :=
  lookupEntry (getStoredImages c) u

/-- JS assignment storedImages[e.originalUrl] = e: overwrite in place if
the key exists (keeping its position), otherwise append. -/
def insertEntry (m : List (String × LocalImageData)) (e : LocalImageData) :
    List (String × LocalImageData) :=
  if m.any (fun kv => kv.1 = e.originalUrl) then
    m.map (fun kv => if kv.1 = e.originalUrl then (kv.1, e) else kv)
  else m ++ [(e.originalUrl, e)]

/-- getCurrentStorageSize: the sum of the logical size fields. -/
def getCurrentStorageSize (c : Cell) : Nat :=
  ((getStoredImages c).map (fun kv => kv.2.size)).sum

/-- getActualStorageSize: new Blob([stored]).size, the encoded byte
length of whatever raw string the slot holds, 0 when absent. -/
def getActualStorageSize (c : Cell) : Nat :=
  match c with
  | Cell.empty => 0
  | Cell.corrupt n => n
  | Cell.valid m => mapJsonLen m

/-- localStorage.setItem under a quota: the write succeeds iff the
serialized map fits, otherwise QuotaExceededError (none). -/
def setItemQ (quota : Nat) (m : List (String × LocalImageData)) : Option Cell :=
  if mapJsonLen m ≤ quota then some (Cell.valid m) else none

/-- cleanupOldImages: delete every entry with now - downloadedAt > maxAge,
write back only when something was deleted, and keep the old state when
that write itself throws (the catch block). -/
def cleanupOldImages (quota now maxAge : Nat) (c : Cell) : Cell :=
  let m := getStoredImages c
  let kept := m.filter (fun kv => decide (now - kv.2.downloadedAt ≤ maxAge))
  if kept.length = m.length then c
  else
    match setItemQ quota kept with
    | some c2 => c2
    | none => c

/-- The comparator of freeUpSpace: size descending, ties broken by
downloadedAt ascending.  evictLe a b says a may come (weakly) before b. -/
def evictLe (a b : String × LocalImageData) : Bool :=
  decide (b.2.size < a.2.size ∨ (a.2.size = b.2.size ∧ a.2.downloadedAt ≤ b.2.downloadedAt))

/-- Insert x after every already placed element that may precede it;
the building block of a stable sort. -/
def insertStable (le : α → α → Bool) (x : α) : List α → List α
  | [] => [x]
  | y :: ys => if le y x then y :: insertStable le x ys else x :: y :: ys

/-- Stable sort (elements inserted in original order, each after its
equals), the guaranteed behavior of Array.prototype.sort. -/
def sortStable (le : α → α → Bool) (l : List α) : List α :=
  l.foldl (fun acc x => insertStable le x acc) []

/-- The eviction order used by freeUpSpace. -/
def sortEntries (m : List (String × LocalImageData)) :
    List (String × LocalImageData) :=
  sortStable evictLe m

/-- The loop of freeUpSpace: walk the sorted entries, stop as soon as the
accumulated freed size reaches the target, otherwise delete and keep
going; returns the deleted keys in order. -/
def evictKeys : List (String × LocalImageData) → Nat → Nat → List String
  | [], _, _ => []
  | kv :: rest, target, freed =>
    if target ≤ freed then []
    else kv.1 :: evictKeys rest target (freed + kv.2.size)

/-- Iterated JS delete storedImages[url] over a list of keys. -/
def removeKeys (m : List (String × LocalImageData)) (ks : List String) :
    List (String × LocalImageData) :=
  ks.foldl (fun acc k => acc.filter (fun kv => decide (kv.1 ≠ k))) m

/-- freeUpSpace: sort, evict until the target is reached, write back only
when something was deleted, and keep the old state when the write throws. -/
def freeUpSpace (quota : Nat) (c : Cell) (target : Nat) : Cell :=
  let m := getStoredImages c
  let ks := evictKeys (sortEntries m) target 0
  if ks.isEmpty then c
  else
    match setItemQ quota (removeKeys m ks) with
    | some c2 => c2
    | none => c

/-- storeImage with its quota retry ladder: plain write; on quota failure
clean up entries older than 3 days and retry; then free
max(2 * size, 10 MB) and retry; then clean up entries older than 1 day
and retry; then give up returning false. -/
def storeImage (quota now : Nat) (c : Cell) (e : LocalImageData) : Cell × Bool :=
  match setItemQ quota (insertEntry (getStoredImages c) e) with
  | some c1 => (c1, true)
  | none =>
    let c2 := cleanupOldImages quota now (3 * 24 * 60 * 60 * 1000) c
    match setItemQ quota (insertEntry (getStoredImages c2) e) with
    | some c3 => (c3, true)
    | none =>
      let c4 := freeUpSpace quota c2 (max (e.size * 2) (10 * 1024 * 1024))
      match setItemQ quota (insertEntry (getStoredImages c4) e) with
      | some c5 => (c5, true)
      | none =>
        let c6 := cleanupOldImages quota now (24 * 60 * 60 * 1000) c4
        match setItemQ quota (insertEntry (getStoredImages c6) e) with
        | some c7 => (c7, true)
        | none => (c6, false)

/-- performMaintenanceCleanup: act only above 80 percent of the budget;
then 7 day cleanup, 3 day cleanup while still above 80 percent, and
finally freeUpSpace down to the 60 percent mark.
41943040 and 31457280 are 80 and 60 percent of MAX_STORAGE_SIZE. -/
def performMaintenanceCleanup (quota now : Nat) (c : Cell) : Cell :=
  if 41943040 < getActualStorageSize c then
    let c1 := cleanupOldImages quota now (7 * 24 * 60 * 60 * 1000) c
    let c2 := if 41943040 < getActualStorageSize c1
              then cleanupOldImages quota now (3 * 24 * 60 * 60 * 1000) c1
              else c1
    if 41943040 < getActualStorageSize c2 then
      freeUpSpace quota c2 (getActualStorageSize c2 - 31457280)
    else c2
  else c

/-- clearAllImages: localStorage.removeItem of the slot. -/
def clearAllImages (_c : Cell) : Cell := Cell.empty

/-- Result of one fetch of a URL, as seen by downloadImageAsDataUrl:
a rejected promise, a non-2xx response, or a blob.  The dataUrl field is
the outcome of the FileReader base64 conversion of that blob, none when
the reader errors. -/
structure FetchedBlob where
  type : String
  size : Nat
  dataUrl : Option String
deriving DecidableEq

/-- Oracle for one fetch call. -/
inductive FetchOutcome where
  | reject : FetchOutcome
  | notOk (status : Nat) : FetchOutcome
  | ok (blob : FetchedBlob) : FetchOutcome
deriving DecidableEq

/-- The LocalImageData record built in the FileReader onload handler. -/
def mkLocalImageData (u : String) (b : FetchedBlob) (d : String) (now : Nat) :
    LocalImageData :=
  { originalUrl := u
    localDataUrl := d
    contentType := if b.type = "" then "image/png" else b.type
    size := b.size
    downloadedAt := now }

/-- downloadImageAsDataUrl: a rejected fetch or a non-2xx response is
caught and becomes null; a payload that would push the logical size sum
over MAX_STORAGE_SIZE becomes null before any conversion; a FileReader
failure rejects the returned promise (Except.error), uncaught here. -/
def downloadImageAsDataUrl (o : FetchOutcome) (now : Nat) (c : Cell)
    (u : String) : Except Unit (Option LocalImageData) :=
  match o with
  | FetchOutcome.reject => Except.ok none
  | FetchOutcome.notOk _ => Except.ok none
  | FetchOutcome.ok b =>
    if MAX_STORAGE_SIZE < getCurrentStorageSize c + b.size then Except.ok none
    else
      match b.dataUrl with
      | some d => Except.ok (some (mkLocalImageData u b d now))
      | none => Except.error ()

/-- downloadAndStoreImage, the resolve operation: cache hit short
circuit, maintenance cleanup, download, store, with every failure path
returning a string.  The third component counts fetch calls. -/
def downloadAndStoreImage (o : FetchOutcome) (quota now : Nat) (c : Cell)
    (u : String) : String × Cell × Nat :=
  match getStoredImage c u with
  | some e => (e.localDataUrl, c, 0)
  | none =>
    let c1 := performMaintenanceCleanup quota now c
    match downloadImageAsDataUrl o now c1 u with
    | Except.error _ => (u, c1, 1)
    | Except.ok none => (u, c1, 1)
    | Except.ok (some dat) =>
      let r := storeImage quota now c1 dat
      (dat.localDataUrl, r.1, 1)

/-- The statistics record returned by getStorageStats. -/
structure StorageStats where
  imageCount : Nat
  totalSize : Nat
  totalSizeMB : ℚ
  actualStorageSize : Nat
  actualStorageSizeMB : ℚ
  storageUsagePercent : ℚ
  oldestImage : Option Nat
  newestImage : Option Nat
deriving DecidableEq

/-- Rounding to one decimal as produced by toFixed(1) plus parseFloat. -/
def round1 (q : ℚ) : ℚ := ((round (q * 10) : ℤ) : ℚ) / 10

/-- Rounding to two decimals as produced by toFixed(2) plus parseFloat. -/
def round2 (q : ℚ) : ℚ := ((round (q * 100) : ℤ) : ℚ) / 100

/-- getStorageStats: counts, logical and encoded sizes, usage percent,
and the timestamps of the oldest and newest entry (null on an empty
store).  The source sorts the values by downloadedAt ascending and takes
the two ends. -/
def getStorageStats (c : Cell) : StorageStats :=
  let images := (getStoredImages c).map (fun kv => kv.2)
  let totalSize := (images.map (fun e => e.size)).sum
  let actual := getActualStorageSize c
  let sorted := sortStable
    (fun a b => decide (a.downloadedAt ≤ b.downloadedAt)) images
  { imageCount := images.length
    totalSize := totalSize
    totalSizeMB := round2 ((totalSize : ℚ) / (1024 * 1024))
    actualStorageSize := actual
    actualStorageSizeMB := round2 ((actual : ℚ) / (1024 * 1024))
    storageUsagePercent := round1 ((actual : ℚ) / (MAX_STORAGE_SIZE : ℚ) * 100)
    oldestImage := sorted.head?.map (fun e => e.downloadedAt)
    newestImage := sorted.getLast?.map (fun e => e.downloadedAt) }

/-- getStorageStats as a state transformer: the source performs reads
only (no setItem or removeItem on any path), so the cell is returned
untouched. -/
def getStorageStatsOp (c : Cell) : StorageStats × Cell :=
  (getStorageStats c, c)

/-- String.prototype.startsWith, written over the character list so that
it reduces in the kernel. -/
def strStartsWith (s p : String) : Bool :=
  s.data.take p.data.length == p.data

/-- ImageMigration.isRemoteUrl: an http or https scheme test. -/
def isRemoteUrl (u : String) : Bool :=
  strStartsWith u "http://" || strStartsWith u "https://"

/-- The per-image step of ImageMigration.processGeneration, reduced to
the url it rewrites: a non-remote url is returned untouched with no
fetch, a remote one goes through downloadAndStoreImage. -/
def processImageUrl (o : FetchOutcome) (quota now : Nat) (c : Cell)
    (u : String) : String × Cell × Nat :=
  if isRemoteUrl u then downloadAndStoreImage o quota now c u
  else (u, c, 0)

/-- One write attempt of the Persist-with-retry operation: read the map,
add the entry, write. -/
def attemptPersist (quota : Nat) (c : Cell) (e : LocalImageData) : Option Cell :=
  setItemQ quota (insertEntry (getStoredImages c) e)

/-- The three recovery steps of the Persist-with-retry ladder, in the
order the specification lists them: 3 day cleanup, freeing
max(2 * sizeBytes, 10 MB) by the eviction policy, 1 day cleanup. -/
def recoverySteps (quota now : Nat) (e : LocalImageData) : List (Cell → Cell) :=
  [fun c => cleanupOldImages quota now (3 * 24 * 60 * 60 * 1000) c,
   fun c => freeUpSpace quota c (max (e.size * 2) (10 * 1024 * 1024)),
   fun c => cleanupOldImages quota now (24 * 60 * 60 * 1000) c]

/-- Run recovery steps in order, retrying the write after each, reporting
failure without raising when the steps are exhausted. -/
def runLadder (quota : Nat) (e : LocalImageData) :
    List (Cell → Cell) → Cell → Cell × Bool
  | [], c => (c, false)
  | f :: fs, c =>
    let c2 := f c
    match attemptPersist quota c2 e with
    | some c3 => (c3, true)
    | none => runLadder quota e fs c2

/-- Persist-with-retry exactly as the specification words it: attempt the
write, and on failure run the recovery ladder. -/
def persistWithRetry (quota now : Nat) (c : Cell) (e : LocalImageData) :
    Cell × Bool :=
  match attemptPersist quota c e with
  | some c2 => (c2, true)
  | none => runLadder quota e (recoverySteps quota now e) c

/-- Smallest count of leading sorted entries whose sizes sum to at least
the target, the whole list when the target is out of reach. -/
def minFreeLen : List (String × LocalImageData) → Nat → Nat
  | _, 0 => 0
  | [], _ + 1 => 0
  | kv :: rest, t + 1 => 1 + minFreeLen rest (t + 1 - kv.2.size)

/-- Sum of the size fields of a list of entries. -/
def sizesSum (l : List (String × LocalImageData)) : Nat :=
  (l.map (fun kv => kv.2.size)).sum

end MediaCache

namespace MediaCache

/-- Every character contributes at least one byte inside a JSON string. -/
lemma one_le_charJsonLen (c : Char) : 1 ≤ charJsonLen c := by
  unfold charJsonLen
  split
  · omega
  · split
    · split <;> omega
    · exact Char.utf8Size_pos c

lemma length_le_sum_charJsonLen :
    ∀ l : List Char, l.length ≤ (l.map charJsonLen).sum := by
  intro l
  induction l with
  | nil => simp
  | cons c cs ih =>
    have := one_le_charJsonLen c
    simp only [List.map_cons, List.sum_cons, List.length_cons]
    omega

/-- A JSON string literal is at least as long as the string it encodes. -/
lemma length_le_jsonStrLen (s : String) : s.length ≤ jsonStrLen s := by
  have h := length_le_sum_charJsonLen s.data
  unfold jsonStrLen
  simp only [String.length]
  omega

/-- The logical size of a consistent entry is bounded by the encoded cost
of its key/value pair: the data url alone already encodes that long. -/
lemma size_le_kvCost (k : String) (e : LocalImageData)
    (h : e.size ≤ e.localDataUrl.length) : e.size ≤ kvCost k e := by
  have h2 := length_le_jsonStrLen e.localDataUrl
  unfold kvCost entryJsonLen
  omega

/-- The serialized map occupies at least the two brace bytes. -/
lemma two_le_mapJsonLen (m : List (String × LocalImageData)) :
    2 ≤ mapJsonLen m := by
  unfold mapJsonLen
  cases m with
  | nil => simp
  | cons kv rest => simp [List.isEmpty_cons]; omega

/-- The encoded map length only depends on the multiset of entries. -/
lemma mapJsonLen_perm {m m' : List (String × LocalImageData)}
    (h : List.Perm m m') : mapJsonLen m = mapJsonLen m' := by
  have hs := (h.map (fun kv => kvCost kv.1 kv.2 + 1)).sum_eq
  have hl := h.length_eq
  unfold mapJsonLen
  cases m with
  | nil =>
    cases m' with
    | nil => rfl
    | cons b bs => simp at hl
  | cons a as =>
    cases m' with
    | nil => simp at hl
    | cons b bs => simpa using hs

/-- Dropping the head of the map saves at least the cost of its pair. -/
lemma mapJsonLen_cons_le (x : String × LocalImageData)
    (l : List (String × LocalImageData)) :
    mapJsonLen l + kvCost x.1 x.2 ≤ mapJsonLen (x :: l) := by
  unfold mapJsonLen
  cases l with
  | nil => simp; omega
  | cons y ys => simp [List.isEmpty_cons]; omega

lemma sum_le_sum_of_sublist {l₁ l₂ : List Nat} (h : List.Sublist l₁ l₂) :
    l₁.sum ≤ l₂.sum := by
  induction h with
  | slnil => simp
  | cons a _ ih => simp; omega
  | cons₂ a _ ih => simp; omega

/-- Filtering the map never grows its encoded length. -/
lemma mapJsonLen_filter_le (p : String × LocalImageData → Bool)
    (m : List (String × LocalImageData)) :
    mapJsonLen (m.filter p) ≤ mapJsonLen m := by
  have hsub : List.Sublist ((m.filter p).map (fun kv => kvCost kv.1 kv.2 + 1))
      (m.map (fun kv => kvCost kv.1 kv.2 + 1)) :=
    (List.filter_sublist m).map _
  have hsum := sum_le_sum_of_sublist hsub
  unfold mapJsonLen
  cases hf : m.filter p with
  | nil =>
    have := two_le_mapJsonLen m
    unfold mapJsonLen at this
    simpa using this
  | cons a as =>
    cases m with
    | nil => simp at hf
    | cons b bs =>
      rw [hf] at hsum
      simp only [List.isEmpty_cons, if_neg] at *
      simp only [Bool.false_eq_true, if_false]
      have := hsum
      simp at this ⊢
      omega

lemma removeKeys_nil_left : ∀ ks : List String, removeKeys [] ks = [] := by
  intro ks
  induction ks with
  | nil => rfl
  | cons k ks ih => simpa [removeKeys, List.filter] using ih

lemma removeKeys_cons (m : List (String × LocalImageData)) (k : String)
    (ks : List String) :
    removeKeys m (k :: ks) = removeKeys (m.filter (fun kv => decide (kv.1 ≠ k))) ks := rfl

/-- Removing keys never grows the encoded length. -/
lemma mapJsonLen_removeKeys_le (ks : List String) :
    ∀ m, mapJsonLen (removeKeys m ks) ≤ mapJsonLen m := by
  induction ks with
  | nil => intro m; exact le_refl _
  | cons k ks ih =>
    intro m
    rw [removeKeys_cons]
    exact (ih _).trans (mapJsonLen_filter_le _ m)

end MediaCache

namespace MediaCache

/-- With a zero quota every write throws. -/
lemma setItemQ_zero (m : List (String × LocalImageData)) :
    setItemQ 0 m = none := by
  have h := two_le_mapJsonLen m
  unfold setItemQ
  split
  · omega
  · rfl

lemma cleanupOldImages_zero (now maxAge : Nat) (c : Cell) :
    cleanupOldImages 0 now maxAge c = c := by
  simp [cleanupOldImages, setItemQ_zero]

lemma freeUpSpace_zero (c : Cell) (t : Nat) : freeUpSpace 0 c t = c := by
  simp [freeUpSpace, setItemQ_zero]

lemma performMaintenanceCleanup_zero (now : Nat) (c : Cell) :
    performMaintenanceCleanup 0 now c = c := by
  simp [performMaintenanceCleanup, cleanupOldImages_zero, freeUpSpace_zero]

lemma storeImage_zero (now : Nat) (c : Cell) (e : LocalImageData) :
    storeImage 0 now c e = (c, false) := by
  simp [storeImage, setItemQ_zero, cleanupOldImages_zero, freeUpSpace_zero]

/-- Inserting with insertStable is a permutation of consing. -/
lemma insertStable_perm (le : α → α → Bool) (x : α) :
    ∀ l : List α, List.Perm (insertStable le x l) (x :: l) := by
  intro l
  induction l with
  | nil => exact List.Perm.refl _
  | cons y ys ih =>
    unfold insertStable
    split
    · exact (ih.cons y).trans (List.Perm.swap x y ys)
    · exact List.Perm.refl _

lemma sortStable_perm_aux (le : α → α → Bool) :
    ∀ (l acc : List α),
      List.Perm (l.foldl (fun a x => insertStable le x a) acc) (acc ++ l) := by
  intro l
  induction l with
  | nil => intro acc; simp
  | cons x xs ih =>
    intro acc
    have h1 := ih (insertStable le x acc)
    have h2 : List.Perm (insertStable le x acc ++ xs) ((x :: acc) ++ xs) :=
      (insertStable_perm le x acc).append_right xs
    have h3 : List.Perm ((x :: acc) ++ xs) (acc ++ x :: xs) :=
      List.perm_middle.symm
    simpa [List.foldl] using (h1.trans (h2.trans h3))

/-- The stable sort permutes its input. -/
lemma sortStable_perm (le : α → α → Bool) (l : List α) :
    List.Perm (sortStable le l) l := by
  simpa [sortStable] using sortStable_perm_aux le l []

lemma insertStable_sorted (le : α → α → Bool)
    (htot : ∀ a b, (le a b || le b a) = true)
    (htrans : ∀ a b c, le a b = true → le b c = true → le a c = true)
    (x : α) :
    ∀ l : List α, l.Pairwise (fun a b => le a b = true) →
      (insertStable le x l).Pairwise (fun a b => le a b = true) := by
  intro l
  induction l with
  | nil => intro _; simp [insertStable]
  | cons y ys ih =>
    intro h
    rw [List.pairwise_cons] at h
    obtain ⟨hy, hys⟩ := h
    unfold insertStable
    split
    · rename_i hle
      rw [List.pairwise_cons]
      refine ⟨?_, ih hys⟩
      intro z hz
      have hz2 : z ∈ x :: ys := (insertStable_perm le x ys).mem_iff.mp hz
      rcases List.mem_cons.mp hz2 with h1 | h1
      · subst h1; exact hle
      · exact hy z h1
    · rename_i hle
      have hxy : le x y = true := by
        have := htot x y
        rcases Bool.or_eq_true_iff.mp this with h1 | h1
        · exact h1
        · exact absurd h1 hle
      rw [List.pairwise_cons]
      constructor
      · intro z hz
        rcases List.mem_cons.mp hz with h1 | h1
        · subst h1; exact hxy
        · exact htrans x y z hxy (hy z h1)
      · rw [List.pairwise_cons]
        exact ⟨hy, hys⟩

lemma sortStable_sorted_aux (le : α → α → Bool)
    (htot : ∀ a b, (le a b || le b a) = true)
    (htrans : ∀ a b c, le a b = true → le b c = true → le a c = true) :
    ∀ (l acc : List α), acc.Pairwise (fun a b => le a b = true) →
      (l.foldl (fun a x => insertStable le x a) acc).Pairwise
        (fun a b => le a b = true) := by
  intro l
  induction l with
  | nil => intro acc h; simpa using h
  | cons x xs ih =>
    intro acc h
    exact ih (insertStable le x acc) (insertStable_sorted le htot htrans x acc h)

/-- The stable sort output respects the comparator. -/
lemma sortStable_sorted (le : α → α → Bool)
    (htot : ∀ a b, (le a b || le b a) = true)
    (htrans : ∀ a b c, le a b = true → le b c = true → le a c = true)
    (l : List α) :
    (sortStable le l).Pairwise (fun a b => le a b = true) :=
  sortStable_sorted_aux le htot htrans l [] (by simp)

/-- The eviction comparator is total. -/
lemma evictLe_total (a b : String × LocalImageData) :
    (evictLe a b || evictLe b a) = true := by
  simp only [evictLe, Bool.or_eq_true, decide_eq_true_eq]
  omega

/-- The eviction comparator is transitive. -/
lemma evictLe_trans (a b c : String × LocalImageData)
    (h1 : evictLe a b = true) (h2 : evictLe b c = true) :
    evictLe a c = true := by
  simp only [evictLe, decide_eq_true_eq] at *
  omega

end MediaCache

namespace MediaCache

/-- The eviction loop deletes exactly the minimal sorted head whose
sizes reach the remaining target. -/
lemma evictKeys_eq_take (t : Nat) :
    ∀ (l : List (String × LocalImageData)) (f : Nat),
      evictKeys l t f = (l.take (minFreeLen l (t - f))).map Prod.fst := by
  intro l
  induction l with
  | nil =>
    intro f
    cases h : t - f <;> simp [evictKeys, minFreeLen]
  | cons kv rest ih =>
    intro f
    by_cases h : t ≤ f
    · have h0 : t - f = 0 := by omega
      simp [evictKeys, h, h0, minFreeLen]
    · obtain ⟨s, hs⟩ : ∃ s, t - f = s + 1 := ⟨t - f - 1, by omega⟩
      have hnext : t - (f + kv.2.size) = s + 1 - kv.2.size := by omega
      simp only [evictKeys, if_neg h, hs, minFreeLen]
      rw [ih (f + kv.2.size), hnext, Nat.add_comm 1 (minFreeLen rest (s + 1 - kv.2.size)),
        List.take_succ_cons, List.map_cons]

/-- minFreeLen is sound (the taken entries reach the target unless the
list is exhausted) and minimal (any shorter head falls short). -/
lemma minFreeLen_spec :
    ∀ (l : List (String × LocalImageData)) (t : Nat),
      (t ≤ sizesSum (l.take (minFreeLen l t)) ∨ minFreeLen l t = l.length) ∧
      (∀ j, j < minFreeLen l t → sizesSum (l.take j) < t) := by
  intro l
  induction l with
  | nil =>
    intro t
    cases t <;> simp [minFreeLen, sizesSum]
  | cons kv rest ih =>
    intro t
    cases t with
    | zero => simp [minFreeLen, sizesSum]
    | succ s =>
      have ihr := ih (s + 1 - kv.2.size)
      constructor
      · rcases ihr.1 with h | h
        · left
          simp only [minFreeLen, Nat.add_comm 1, List.take_succ_cons]
          simp only [sizesSum, List.map_cons, List.sum_cons] at *
          omega
        · right
          simp [minFreeLen, h]
          omega
      · intro j hj
        simp only [minFreeLen] at hj
        cases j with
        | zero => simp [sizesSum]
        | succ i =>
          have hi : i < minFreeLen rest (s + 1 - kv.2.size) := by omega
          have h2 := ihr.2 i hi
          have h3 : ¬ (s + 1 - kv.2.size = 0) := by
            intro h0
            rw [h0] at hi
            simp [minFreeLen] at hi
          simp only [List.take_succ_cons]
          simp only [sizesSum, List.map_cons, List.sum_cons] at *
          omega

/-- After storedImages[e.originalUrl] = e, looking the key up yields e. -/
lemma lookup_insertEntry (m : List (String × LocalImageData))
    (e : LocalImageData) :
    lookupEntry (insertEntry m e) e.originalUrl = some e := by
  unfold insertEntry
  by_cases h : m.any (fun kv => decide (kv.1 = e.originalUrl))
  · simp only [h, if_true]
    induction m with
    | nil => simp at h
    | cons kv m ih =>
      by_cases hk : kv.1 = e.originalUrl
      · simp [lookupEntry, List.find?, hk]
      · have h2 : m.any (fun kv => decide (kv.1 = e.originalUrl)) := by
          simp only [List.any_cons, Bool.or_eq_true, decide_eq_true_eq] at h
          rcases h with h | h
          · exact absurd h hk
          · simpa using h
        have := ih h2
        simpa [lookupEntry, List.find?, hk] using this
  · simp only [h, if_false]
    induction m with
    | nil => simp [lookupEntry, List.find?]
    | cons kv m ih =>
      have hk : ¬ (kv.1 = e.originalUrl) := by
        intro hkk
        apply h
        simp [List.any_cons, hkk]
      have h2 : ¬ m.any (fun kv => decide (kv.1 = e.originalUrl)) := by
        intro hm
        apply h
        simp [List.any_cons, hm]
      have := ih h2
      simpa [lookupEntry, List.find?, hk] using this

end MediaCache

namespace MediaCache

/-- Core accounting of freeUpSpace: deleting the evicted keys either
empties the map, or shrinks its encoded length by at least the target,
because every consistent entry encodes to at least its logical size. -/
lemma free_red :
    ∀ (l : List (String × LocalImageData)) (t : Nat)
      (m : List (String × LocalImageData)),
      List.Perm l m → ((m.map Prod.fst).Nodup) →
      (∀ kv ∈ m, kv.2.size ≤ kvCost kv.1 kv.2) →
      removeKeys m ((l.take (minFreeLen l t)).map Prod.fst) = [] ∨
      mapJsonLen (removeKeys m ((l.take (minFreeLen l t)).map Prod.fst)) + t
        ≤ mapJsonLen m := by
  intro l
  induction l with
  | nil =>
    intro t m hp _ _
    left
    have hm : m = [] := hp.symm.eq_nil
    rw [hm]
    exact removeKeys_nil_left _
  | cons kv rest ih =>
    intro t m hp hnd hc
    cases t with
    | zero =>
      right
      simp only [minFreeLen, List.take_zero, List.map_nil]
      have : removeKeys m [] = m := rfl
      rw [this]
      omega
    | succ s =>
      have hmemkv : kv ∈ m := hp.mem_iff.mp (List.mem_cons_self kv rest)
      have h2 : List.Perm m (kv :: rest) := hp.symm
      have hnd2 : ((kv :: rest).map Prod.fst).Nodup :=
        ((h2.map Prod.fst).nodup_iff).mp hnd
      have hknotin : kv.1 ∉ rest.map Prod.fst := by
        simp only [List.map_cons, List.nodup_cons] at hnd2
        exact hnd2.1
      have hrest_filter :
          rest.filter (fun x => decide (x.1 ≠ kv.1)) = rest := by
        rw [List.filter_eq_self]
        intro x hx
        simp only [decide_eq_true_eq]
        intro hxx
        exact hknotin (hxx ▸ List.mem_map_of_mem Prod.fst hx)
      have hm1 : List.Perm (m.filter (fun x => decide (x.1 ≠ kv.1))) rest := by
        have hf := h2.filter (fun x => decide (x.1 ≠ kv.1))
        have hcons : (kv :: rest).filter (fun x => decide (x.1 ≠ kv.1)) = rest := by
          rw [List.filter_cons]
          have hpkv : (decide (kv.1 ≠ kv.1)) = false := by simp
          rw [hpkv]
          simpa using hrest_filter
        exact hcons ▸ hf
      have hnd1 :
          ((m.filter (fun x => decide (x.1 ≠ kv.1))).map Prod.fst).Nodup := by
        have hsub :
            List.Sublist
              ((m.filter (fun x => decide (x.1 ≠ kv.1))).map Prod.fst)
              (m.map Prod.fst) :=
          (List.filter_sublist m).map Prod.fst
        exact hnd.sublist hsub
      have hc1 : ∀ x ∈ m.filter (fun x => decide (x.1 ≠ kv.1)),
          x.2.size ≤ kvCost x.1 x.2 := by
        intro x hx
        exact hc x (List.mem_of_mem_filter hx)
      have ihr := ih (s + 1 - kv.2.size)
        (m.filter (fun x => decide (x.1 ≠ kv.1))) hm1.symm hnd1 hc1
      have hks : ((kv :: rest).take (minFreeLen (kv :: rest) (s + 1))).map Prod.fst
          = kv.1 ::
            ((rest.take (minFreeLen rest (s + 1 - kv.2.size))).map Prod.fst) := by
        simp [minFreeLen, Nat.add_comm 1, List.take_succ_cons]
      rw [hks, removeKeys_cons]
      rcases ihr with h | h
      · left; exact h
      · right
        have e1 : mapJsonLen m = mapJsonLen (kv :: rest) := mapJsonLen_perm h2
        have e2 : mapJsonLen (m.filter (fun x => decide (x.1 ≠ kv.1)))
            = mapJsonLen rest := mapJsonLen_perm hm1
        have e3 := mapJsonLen_cons_le kv rest
        have e4 : kv.2.size ≤ kvCost kv.1 kv.2 := hc kv hmemkv
        omega

end MediaCache

namespace MediaCache

/-- cleanupOldImages either leaves the cell alone or succeeds in writing
the filtered map (under a quota the current content already fits). -/
lemma cleanupOldImages_cases (quota now maxAge : Nat) (c : Cell)
    (hq : getActualStorageSize c ≤ quota) :
    cleanupOldImages quota now maxAge c = c ∨
    (cleanupOldImages quota now maxAge c
       = Cell.valid ((getStoredImages c).filter
           (fun kv => decide (now - kv.2.downloadedAt ≤ maxAge))) ∧
     mapJsonLen ((getStoredImages c).filter
           (fun kv => decide (now - kv.2.downloadedAt ≤ maxAge))) ≤ quota) := by
  by_cases hlen : ((getStoredImages c).filter
      (fun kv => decide (now - kv.2.downloadedAt ≤ maxAge))).length
      = (getStoredImages c).length
  · left
    simp only [cleanupOldImages]
    rw [if_pos hlen]
  · cases c with
    | empty => simp [getStoredImages] at hlen
    | corrupt n => simp [getStoredImages] at hlen
    | valid m =>
      right
      have hq2 : mapJsonLen m ≤ quota := hq
      have hle : mapJsonLen (m.filter
          (fun kv => decide (now - kv.2.downloadedAt ≤ maxAge))) ≤ quota :=
        (mapJsonLen_filter_le _ m).trans hq2
      refine ⟨?_, hle⟩
      simp only [cleanupOldImages, getStoredImages] at *
      rw [if_neg hlen]
      simp only [setItemQ]
      rw [if_pos hle]

/-- The invariant that the maintenance argument carries: unique keys, a
data url at least as long as the logical size, and persisted content
within the quota. -/
def GoodState (quota : Nat) (c : Cell) : Prop :=
  ((getStoredImages c).map Prod.fst).Nodup ∧
  (∀ kv ∈ getStoredImages c, kv.2.size ≤ kv.2.localDataUrl.length) ∧
  getActualStorageSize c ≤ quota

lemma cleanup_good (quota now maxAge : Nat) (c : Cell)
    (h : GoodState quota c) :
    GoodState quota (cleanupOldImages quota now maxAge c) := by
  rcases cleanupOldImages_cases quota now maxAge c h.2.2 with hc | ⟨hc, hle⟩
  · rw [hc]; exact h
  · rw [hc]
    refine ⟨?_, ?_, ?_⟩
    · have hsub :
          List.Sublist
            (((getStoredImages c).filter
              (fun kv => decide (now - kv.2.downloadedAt ≤ maxAge))).map Prod.fst)
            ((getStoredImages c).map Prod.fst) :=
        (List.filter_sublist _).map Prod.fst
      exact h.1.sublist hsub
    · intro kv hkv
      exact h.2.1 kv (List.mem_of_mem_filter hkv)
    · exact hle

lemma sortEntries_perm (m : List (String × LocalImageData)) :
    List.Perm (sortEntries m) m := sortStable_perm _ m

lemma sortEntries_sorted (m : List (String × LocalImageData)) :
    (sortEntries m).Pairwise (fun a b => evictLe a b = true) :=
  sortStable_sorted _ evictLe_total evictLe_trans m

/-- The usage percent field is the rounded ratio of the actual encoded
size to the budget. -/
lemma storageUsagePercent_eq (c : Cell) :
    (getStorageStats c).storageUsagePercent
      = round1 ((getActualStorageSize c : ℚ) / (MAX_STORAGE_SIZE : ℚ) * 100) := rfl

/-- Content at or below 80 percent of the budget reports a usage percent
of at most 80. -/
lemma usagePercent_le_80 (c : Cell) (h : getActualStorageSize c ≤ 41943040) :
    (getStorageStats c).storageUsagePercent ≤ 80 := by
  rw [storageUsagePercent_eq]
  have hcast : (getActualStorageSize c : ℚ) ≤ 41943040 := by exact_mod_cast h
  have hmax : (MAX_STORAGE_SIZE : ℚ) = 52428800 := by norm_num [MAX_STORAGE_SIZE]
  have hq : ((getActualStorageSize c : ℚ) / (MAX_STORAGE_SIZE : ℚ) * 100) * 10
      ≤ 800 := by
    rw [hmax, div_mul_eq_mul_div, div_mul_eq_mul_div, div_le_iff₀ (by norm_num)]
    linarith
  have hround : round (((getActualStorageSize c : ℚ) / (MAX_STORAGE_SIZE : ℚ)
      * 100) * 10) ≤ 800 := by
    rw [round_eq]
    have h1 := Int.floor_le_floor (α := ℚ)
      (a := ((getActualStorageSize c : ℚ) / (MAX_STORAGE_SIZE : ℚ) * 100) * 10 + 1 / 2)
      (b := 800 + 1 / 2) (by linarith)
    have h2 : ⌊(800 : ℚ) + 1 / 2⌋ = 800 := by norm_num
    omega
  unfold round1
  rw [div_le_iff₀ (by norm_num)]
  have : ((800 : ℤ) : ℚ) = 80 * 10 := by norm_num
  rw [← this]
  exact_mod_cast hround

/-- freeUpSpace on a parsed map that fits the quota: the evicted keys are
removed and the result is written back. -/
lemma freeUpSpace_eq (quota : Nat) (m : List (String × LocalImageData)) (t : Nat)
    (hq : mapJsonLen m ≤ quota) :
    freeUpSpace quota (Cell.valid m) t
      = Cell.valid (removeKeys m
          (((sortEntries m).take (minFreeLen (sortEntries m) t)).map Prod.fst)) := by
  simp only [freeUpSpace, getStoredImages]
  rw [evictKeys_eq_take, Nat.sub_zero]
  by_cases hks : (((sortEntries m).take (minFreeLen (sortEntries m) t)).map
      Prod.fst).isEmpty
  · rw [if_pos hks]
    have hnil : ((sortEntries m).take (minFreeLen (sortEntries m) t)).map
        Prod.fst = [] := by
      cases hh : ((sortEntries m).take (minFreeLen (sortEntries m) t)).map
          Prod.fst with
      | nil => rfl
      | cons a as => rw [hh] at hks; simp at hks
    rw [hnil]
    rfl
  · rw [if_neg hks]
    have hle : mapJsonLen (removeKeys m
        (((sortEntries m).take (minFreeLen (sortEntries m) t)).map Prod.fst))
        ≤ quota := (mapJsonLen_removeKeys_le _ m).trans hq
    simp only [setItemQ]
    rw [if_pos hle]

end MediaCache

namespace MediaCache

/-- Final phase of maintenance: after the optional freeUpSpace pass, the
usage percent is at most 80 or the parsed store is empty. -/
lemma maintenance_final_step (quota : Nat) (c2 : Cell) (hg : GoodState quota c2) :
    (getStorageStats (if 41943040 < getActualStorageSize c2 then
        freeUpSpace quota c2 (getActualStorageSize c2 - 31457280)
      else c2)).storageUsagePercent ≤ 80 ∨
    getStoredImages (if 41943040 < getActualStorageSize c2 then
        freeUpSpace quota c2 (getActualStorageSize c2 - 31457280)
      else c2) = [] := by
  by_cases hcond : 41943040 < getActualStorageSize c2
  · rw [if_pos hcond]
    cases c2 with
    | empty => simp [getActualStorageSize] at hcond
    | corrupt n =>
      right
      have hfix : freeUpSpace quota (Cell.corrupt n)
          (getActualStorageSize (Cell.corrupt n) - 31457280) = Cell.corrupt n := by
        simp [freeUpSpace, getStoredImages, sortEntries, sortStable, evictKeys]
      rw [hfix]
      rfl
    | valid m =>
      have hql : mapJsonLen m ≤ quota := hg.2.2
      rw [freeUpSpace_eq quota m _ hql]
      have hcons : ∀ kv ∈ m, kv.2.size ≤ kvCost kv.1 kv.2 := by
        intro kv hkv
        exact size_le_kvCost kv.1 kv.2 (hg.2.1 kv hkv)
      have hfr := free_red (sortEntries m)
        (getActualStorageSize (Cell.valid m) - 31457280) m
        (sortEntries_perm m) hg.1 hcons
      rcases hfr with hempty | hbound
      · right
        simpa [getStoredImages] using hempty
      · left
        apply usagePercent_le_80
        have hval : getActualStorageSize (Cell.valid m) = mapJsonLen m := rfl
        rw [hval] at hbound hcond ⊢
        have hrk : getActualStorageSize (Cell.valid (removeKeys m
            (((sortEntries m).take (minFreeLen (sortEntries m)
              (mapJsonLen m - 31457280))).map Prod.fst)))
            = mapJsonLen (removeKeys m
            (((sortEntries m).take (minFreeLen (sortEntries m)
              (mapJsonLen m - 31457280))).map Prod.fst)) := rfl
        rw [hrk]
        omega
  · rw [if_neg hcond]
    left
    exact usagePercent_le_80 c2 (by omega)

/-- Below the 80 percent threshold the maintenance pass does nothing. -/
lemma maintenance_noop (quota now : Nat) (st : Cell)
    (h : getActualStorageSize st ≤ 41943040) :
    performMaintenanceCleanup quota now st = st := by
  unfold performMaintenanceCleanup
  rw [if_neg (by omega)]

/-- The maintenance postcondition: usage at most 80 percent or an empty
parsed store. -/
lemma maintenance_post (quota now : Nat) (st : Cell) (h : GoodState quota st) :
    (getStorageStats (performMaintenanceCleanup quota now st)).storageUsagePercent
      ≤ 80 ∨
    getStoredImages (performMaintenanceCleanup quota now st) = [] := by
  unfold performMaintenanceCleanup
  by_cases h0 : 41943040 < getActualStorageSize st
  · rw [if_pos h0]
    have hg1 : GoodState quota (cleanupOldImages quota now (7 * 24 * 60 * 60 * 1000) st) :=
      cleanup_good _ _ _ _ h
    have hg2 : GoodState quota
        (if 41943040 < getActualStorageSize
            (cleanupOldImages quota now (7 * 24 * 60 * 60 * 1000) st)
         then cleanupOldImages quota now (3 * 24 * 60 * 60 * 1000)
            (cleanupOldImages quota now (7 * 24 * 60 * 60 * 1000) st)
         else cleanupOldImages quota now (7 * 24 * 60 * 60 * 1000) st) := by
      split
      · exact cleanup_good _ _ _ _ hg1
      · exact hg1
    exact maintenance_final_step quota _ hg2
  · rw [if_neg h0]
    left
    exact usagePercent_le_80 st (by omega)

end MediaCache

namespace MediaCache

/-- C1: for an uncached URL whose fetch rejects or yields a non-2xx
response, resolve returns the original URL unchanged; and on every input
resolve terminates with some renderable string — the original URL, the
freshly encoded data url of the fetched payload, or the cached
localDataUrl — never propagating an exception (the outer catch makes the
embedding a total function). -/
theorem resolve_never_throws_fail_open (o : FetchOutcome) (quota now : Nat)
    (c : Cell) (u : String) :
    ((getStoredImage c u = none ∧
        (o = FetchOutcome.reject ∨ ∃ s, o = FetchOutcome.notOk s)) →
      (downloadAndStoreImage o quota now c u).1 = u) ∧
    ((downloadAndStoreImage o quota now c u).1 = u ∨
     (∃ b, o = FetchOutcome.ok b ∧
        b.dataUrl = some (downloadAndStoreImage o quota now c u).1) ∨
     (∃ e, getStoredImage c u = some e ∧
        (downloadAndStoreImage o quota now c u).1 = e.localDataUrl)) := by
  constructor
  · rintro ⟨hmiss, hfail⟩
    rcases hfail with h | ⟨s, h⟩ <;> subst h <;>
      simp [downloadAndStoreImage, hmiss, downloadImageAsDataUrl]
  · cases hLook : getStoredImage c u with
    | some e =>
      right; right
      exact ⟨e, rfl, by simp [downloadAndStoreImage, hLook]⟩
    | none =>
      cases o with
      | reject =>
        left; simp [downloadAndStoreImage, hLook, downloadImageAsDataUrl]
      | notOk s =>
        left; simp [downloadAndStoreImage, hLook, downloadImageAsDataUrl]
      | ok b =>
        by_cases hsz : MAX_STORAGE_SIZE < getCurrentStorageSize
            (performMaintenanceCleanup quota now c) + b.size
        · left
          simp [downloadAndStoreImage, hLook, downloadImageAsDataUrl, hsz]
        · cases hd : b.dataUrl with
          | none =>
            left
            simp [downloadAndStoreImage, hLook, downloadImageAsDataUrl, hsz, hd]
          | some d =>
            right; left
            refine ⟨b, rfl, ?_⟩
            simp [downloadAndStoreImage, hLook, downloadImageAsDataUrl, hsz, hd,
              mkLocalImageData]

theorem resolve_never_throws_fail_open_witness :
    getStoredImage Cell.empty "u" = none ∧
    (downloadAndStoreImage FetchOutcome.reject 7 0 Cell.empty "u").1 = "u" :=
  ⟨by decide,
   (resolve_never_throws_fail_open FetchOutcome.reject 7 0 Cell.empty "u").1
     ⟨by decide, Or.inl rfl⟩⟩

/-- C2 counterexample: resolve (downloadAndStoreImage) has no scheme
guard at all; an uncached input that is already a data url is passed to
fetch (one fetch call performed, not zero) and the re-encoded fetched
payload, not the input string, is returned. -/
theorem resolve_scheme_guard_cex :
    (downloadAndStoreImage
        (FetchOutcome.ok ⟨"image/png", 3, some "data:image/png;base64,QUJD"⟩)
        1000 0 Cell.empty "data:x").1 ≠ "data:x" ∧
    (downloadAndStoreImage
        (FetchOutcome.ok ⟨"image/png", 3, some "data:image/png;base64,QUJD"⟩)
        1000 0 Cell.empty "data:x").2.2 = 1 := by
  constructor <;> decide

/-- C2 amended: the pass-through for non-remote inputs is enforced one
layer up, by ImageMigration.processGeneration via isRemoteUrl: an input
that does not start with the http or https scheme is returned unchanged
with zero fetch calls and an untouched store. -/
theorem migration_pass_through (o : FetchOutcome) (quota now : Nat) (c : Cell)
    (u : String) (h : isRemoteUrl u = false) :
    processImageUrl o quota now c u = (u, c, 0) := by
  simp [processImageUrl, h]

theorem migration_pass_through_witness :
    isRemoteUrl "data:image/png;base64,QUJD" = false ∧
    processImageUrl FetchOutcome.reject 9 9 Cell.empty
        "data:image/png;base64,QUJD"
      = ("data:image/png;base64,QUJD", Cell.empty, 0) :=
  ⟨by decide,
   migration_pass_through FetchOutcome.reject 9 9 Cell.empty
     "data:image/png;base64,QUJD" (by decide)⟩

/-- C3: with a cache miss, a successful fetch, a successful encode and a
passing size check, resolve returns the freshly encoded payload whatever
became of the persistence attempt; and when every persistence write
fails (zero quota) the cell is completely unchanged, so the payload is
still returned, nothing raises, and the entry is absent afterwards. -/
theorem resolve_payload_survives_persist_failure (b : FetchedBlob) (d : String)
    (quota now : Nat) (c : Cell) (u : String)
    (hmiss : getStoredImage c u = none)
    (hdata : b.dataUrl = some d)
    (hsize : getCurrentStorageSize (performMaintenanceCleanup quota now c)
      + b.size ≤ MAX_STORAGE_SIZE) :
    (downloadAndStoreImage (FetchOutcome.ok b) quota now c u).1 = d ∧
    (quota = 0 →
      downloadAndStoreImage (FetchOutcome.ok b) quota now c u = (d, c, 1) ∧
      getStoredImage
        ((downloadAndStoreImage (FetchOutcome.ok b) quota now c u).2.1) u
        = none) := by
  have hsz : ¬ (MAX_STORAGE_SIZE < getCurrentStorageSize
      (performMaintenanceCleanup quota now c) + b.size) := by omega
  constructor
  · simp [downloadAndStoreImage, hmiss, downloadImageAsDataUrl, hsz, hdata,
      mkLocalImageData]
  · rintro rfl
    have hm := performMaintenanceCleanup_zero now c
    rw [hm] at hsz
    have hres : downloadAndStoreImage (FetchOutcome.ok b) 0 now c u
        = (d, c, 1) := by
      simp [downloadAndStoreImage, hmiss, downloadImageAsDataUrl, hm, hsz,
        hdata, storeImage_zero, mkLocalImageData]
    refine ⟨hres, ?_⟩
    rw [hres]
    exact hmiss

theorem resolve_payload_survives_persist_failure_witness :
    getStoredImage Cell.empty "http://u" = none ∧
    downloadAndStoreImage
        (FetchOutcome.ok ⟨"image/png", 3, some "data:d"⟩) 0 5
        Cell.empty "http://u" = ("data:d", Cell.empty, 1) :=
  ⟨by decide,
   ((resolve_payload_survives_persist_failure ⟨"image/png", 3, some "data:d"⟩
      "data:d" 0 5 Cell.empty "http://u" (by decide) rfl (by decide)).2 rfl).1⟩

/-- C4: when the logical sizes of the stored entries plus the new
payload exceed the 50 MB budget at the point of the check (after the
maintenance pass that precedes every download), the download step yields
null without encoding or storing anything, resolve returns the original
URL, and the cell is exactly the maintenance-cleaned one. -/
theorem resolve_size_guard (b : FetchedBlob) (quota now : Nat) (c : Cell)
    (u : String)
    (hmiss : getStoredImage c u = none)
    (hover : MAX_STORAGE_SIZE < getCurrentStorageSize
      (performMaintenanceCleanup quota now c) + b.size) :
    downloadImageAsDataUrl (FetchOutcome.ok b) now
        (performMaintenanceCleanup quota now c) u = Except.ok none ∧
    downloadAndStoreImage (FetchOutcome.ok b) quota now c u
      = (u, performMaintenanceCleanup quota now c, 1) := by
  constructor
  · simp [downloadImageAsDataUrl, hover]
  · simp [downloadAndStoreImage, hmiss, downloadImageAsDataUrl, hover]

theorem resolve_size_guard_witness :
    getStoredImage Cell.empty "http://u2" = none ∧
    downloadAndStoreImage (FetchOutcome.ok ⟨"", 52428801, some "x"⟩) 0 0
        Cell.empty "http://u2"
      = ("http://u2", Cell.empty, 1) := by
  refine ⟨by decide, ?_⟩
  have h := (resolve_size_guard ⟨"", 52428801, some "x"⟩ 0 0 Cell.empty
    "http://u2" (by decide) (by decide)).2
  rw [h, performMaintenanceCleanup_zero]

end MediaCache

namespace MediaCache

/-- C5: storeImage is exactly the Persist-with-retry ladder of the
specification — plain write; on a quota failure a 3 day cleanup and
retry; then freeing max(2 x sizeBytes, 10 MB) by the eviction policy and
retry; then a 1 day cleanup and retry; then giving up with a false
result reported to the caller instead of a raised error. -/
theorem storeImage_is_persistWithRetry (quota now : Nat) (c : Cell)
    (e : LocalImageData) :
    storeImage quota now c e = persistWithRetry quota now c e := by
  unfold storeImage persistWithRetry runLadder recoverySteps attemptPersist
  rfl

/-- C6: freeUpSpace removes exactly the minimal head of the entries
sorted by sizeBytes descending with ties broken by downloadedAt
ascending whose cumulative size reaches the target (all entries when the
target is out of reach): the sorted list permutes the map and respects
the comparator, the written result is the map minus precisely the keys
of that head, the head reaches the target unless it is the whole list,
and every shorter head falls short. -/
theorem freeUpSpace_minimal_sorted_head (quota t : Nat)
    (m : List (String × LocalImageData)) (hq : mapJsonLen m ≤ quota) :
    List.Perm (sortEntries m) m ∧
    (sortEntries m).Pairwise (fun a b => evictLe a b = true) ∧
    freeUpSpace quota (Cell.valid m) t
      = Cell.valid (removeKeys m
          (((sortEntries m).take (minFreeLen (sortEntries m) t)).map Prod.fst)) ∧
    (t ≤ sizesSum ((sortEntries m).take (minFreeLen (sortEntries m) t)) ∨
      minFreeLen (sortEntries m) t = (sortEntries m).length) ∧
    (∀ j, j < minFreeLen (sortEntries m) t →
      sizesSum ((sortEntries m).take j) < t) :=
  ⟨sortEntries_perm m, sortEntries_sorted m, freeUpSpace_eq quota m t hq,
   (minFreeLen_spec (sortEntries m) t).1, (minFreeLen_spec (sortEntries m) t).2⟩

theorem freeUpSpace_minimal_sorted_head_witness :
    mapJsonLen
      [("A", ⟨"A", "aaaaa", "t", 5, 900⟩),
       ("B", ⟨"B", "bbb", "t", 3, 100⟩),
       ("C", ⟨"C", "ccc", "t", 3, 900⟩)] ≤ 100000 ∧
    freeUpSpace 100000 (Cell.valid
      [("A", ⟨"A", "aaaaa", "t", 5, 900⟩),
       ("B", ⟨"B", "bbb", "t", 3, 100⟩),
       ("C", ⟨"C", "ccc", "t", 3, 900⟩)]) 5
    = Cell.valid
      [("B", ⟨"B", "bbb", "t", 3, 100⟩),
       ("C", ⟨"C", "ccc", "t", 3, 900⟩)] := by
  refine ⟨by decide, ?_⟩
  have h := (freeUpSpace_minimal_sorted_head 100000 5
    [("A", ⟨"A", "aaaaa", "t", 5, 900⟩),
     ("B", ⟨"B", "bbb", "t", 3, 100⟩),
     ("C", ⟨"C", "ccc", "t", 3, 900⟩)] (by decide)).2.2.1
  rw [h]
  decide

/-- C7: the maintenance pass acts only above 80 percent of the budget
(41943040 bytes of actual persisted content), a cache-miss resolve runs
it before the download (the failed-fetch resolve ends in exactly the
maintenance-cleaned cell), and after it completes the reported usage
percent is at most 80 unless the parsed store is empty.  Hypotheses:
unique keys, entries whose embedded data url is at least as long as
their logical size (true of every base64 data url the code builds), and
persisted content that fits the quota. -/
theorem maintenance_trigger_and_bound (quota now : Nat) (st : Cell)
    (hnd : ((getStoredImages st).map Prod.fst).Nodup)
    (hcons : ∀ kv ∈ getStoredImages st, kv.2.size ≤ kv.2.localDataUrl.length)
    (hq : getActualStorageSize st ≤ quota) :
    (getActualStorageSize st ≤ 41943040 →
      performMaintenanceCleanup quota now st = st) ∧
    (∀ u, getStoredImage st u = none →
      (downloadAndStoreImage FetchOutcome.reject quota now st u).2.1
        = performMaintenanceCleanup quota now st) ∧
    ((getStorageStats (performMaintenanceCleanup quota now st)).storageUsagePercent
        ≤ 80 ∨
      getStoredImages (performMaintenanceCleanup quota now st) = []) := by
  refine ⟨maintenance_noop quota now st, ?_,
    maintenance_post quota now st ⟨hnd, hcons, hq⟩⟩
  intro u hu
  simp [downloadAndStoreImage, hu, downloadImageAsDataUrl]

theorem maintenance_trigger_and_bound_witness :
    ((getStoredImages Cell.empty).map Prod.fst).Nodup ∧
    getActualStorageSize Cell.empty ≤ 10 ∧
    performMaintenanceCleanup 10 0 Cell.empty = Cell.empty ∧
    getStoredImages (performMaintenanceCleanup 10 0 Cell.empty) = [] := by
  have h := maintenance_trigger_and_bound 10 0 Cell.empty (by decide)
    (by intro kv hkv; simp [getStoredImages] at hkv) (by decide)
  refine ⟨by decide, by decide, h.1 (by decide), ?_⟩
  rw [h.1 (by decide)]
  rfl

/-- C8 counterexample: when the persistence write always fails (zero
quota) nothing is cached, so a second resolve of the same URL fetches
again and can return a different payload: two fetch calls in total and
two different results, against the claimed at-most-one fetch and equal
payloads. -/
theorem resolve_idempotence_cex :
    (downloadAndStoreImage (FetchOutcome.ok ⟨"image/png", 1, some "data:1"⟩)
        0 0 Cell.empty "http://u").1 ≠
      (downloadAndStoreImage (FetchOutcome.ok ⟨"image/png", 1, some "data:2"⟩)
        0 0
        (downloadAndStoreImage (FetchOutcome.ok ⟨"image/png", 1, some "data:1"⟩)
          0 0 Cell.empty "http://u").2.1 "http://u").1 ∧
    (downloadAndStoreImage (FetchOutcome.ok ⟨"image/png", 1, some "data:1"⟩)
        0 0 Cell.empty "http://u").2.2 +
      (downloadAndStoreImage (FetchOutcome.ok ⟨"image/png", 1, some "data:2"⟩)
        0 0
        (downloadAndStoreImage (FetchOutcome.ok ⟨"image/png", 1, some "data:1"⟩)
          0 0 Cell.empty "http://u").2.1 "http://u").2.2 = 2 := by
  constructor <;> decide

/-- C8 amended: provided the first resolve persists its entry (cache
miss, successful fetch and encode, passing size check, and a first write
that fits the quota), both sequential calls return the same embedded
payload, the first performs exactly one fetch, and the second is a cache
hit returning the stored localDataUrl with zero fetches and an unchanged
cell — whatever its own fetch oracle would have produced. -/
theorem resolve_idempotent_when_persisted (b : FetchedBlob) (d : String)
    (quota now now2 : Nat) (c : Cell) (u : String) (o2 : FetchOutcome)
    (hmiss : getStoredImage c u = none)
    (hdata : b.dataUrl = some d)
    (hsize : getCurrentStorageSize (performMaintenanceCleanup quota now c)
      + b.size ≤ MAX_STORAGE_SIZE)
    (hfit : mapJsonLen (insertEntry
        (getStoredImages (performMaintenanceCleanup quota now c))
        (mkLocalImageData u b d now)) ≤ quota) :
    (downloadAndStoreImage (FetchOutcome.ok b) quota now c u).1 = d ∧
    (downloadAndStoreImage (FetchOutcome.ok b) quota now c u).2.2 = 1 ∧
    downloadAndStoreImage o2 quota now2
        ((downloadAndStoreImage (FetchOutcome.ok b) quota now c u).2.1) u
      = (d, (downloadAndStoreImage (FetchOutcome.ok b) quota now c u).2.1, 0) := by
  have hsz : ¬ (MAX_STORAGE_SIZE < getCurrentStorageSize
      (performMaintenanceCleanup quota now c) + b.size) := by omega
  have hproj : (mkLocalImageData u b d now).localDataUrl = d := rfl
  have hkey : (mkLocalImageData u b d now).originalUrl = u := rfl
  have h1 : downloadAndStoreImage (FetchOutcome.ok b) quota now c u
      = (d, Cell.valid (insertEntry
          (getStoredImages (performMaintenanceCleanup quota now c))
          (mkLocalImageData u b d now)), 1) := by
    simp [downloadAndStoreImage, hmiss, downloadImageAsDataUrl, hsz, hdata,
      storeImage, setItemQ, hfit, hproj]
  have h2 : getStoredImage (Cell.valid (insertEntry
      (getStoredImages (performMaintenanceCleanup quota now c))
      (mkLocalImageData u b d now))) u = some (mkLocalImageData u b d now) := by
    have h3 := lookup_insertEntry
      (getStoredImages (performMaintenanceCleanup quota now c))
      (mkLocalImageData u b d now)
    rw [hkey] at h3
    simpa [getStoredImage, getStoredImages] using h3
  refine ⟨by rw [h1], by rw [h1], ?_⟩
  rw [h1]
  simp [downloadAndStoreImage, h2, hproj]

theorem resolve_idempotent_when_persisted_witness :
    (downloadAndStoreImage (FetchOutcome.ok ⟨"image/png", 1, some "data:1"⟩)
        100000 0 Cell.empty "http://u").1 = "data:1" ∧
    downloadAndStoreImage FetchOutcome.reject 100000 7
        ((downloadAndStoreImage (FetchOutcome.ok ⟨"image/png", 1, some "data:1"⟩)
          100000 0 Cell.empty "http://u").2.1) "http://u"
      = ("data:1",
         (downloadAndStoreImage (FetchOutcome.ok ⟨"image/png", 1, some "data:1"⟩)
          100000 0 Cell.empty "http://u").2.1, 0) := by
  have h := resolve_idempotent_when_persisted ⟨"image/png", 1, some "data:1"⟩
    "data:1" 100000 0 7 Cell.empty "http://u" FetchOutcome.reject
    (by decide) rfl (by decide) (by decide)
  exact ⟨h.1, h.2.2⟩

/-- C9 counterexample: on an unparseable slot getStats does not behave
as on an empty store — the usage percent still reflects the raw
persisted byte length (10 percent for a 5242880 byte corrupt blob)
while an empty store reports 0. -/
theorem corrupt_stats_cex :
    (getStorageStats (Cell.corrupt 5242880)).storageUsagePercent = 10 ∧
    (getStorageStats Cell.empty).storageUsagePercent = 0 := by
  constructor <;>
    norm_num [getStorageStats, getActualStorageSize, round1, MAX_STORAGE_SIZE,
      round_eq]

/-- C9 amended: on an unparseable slot every read yields the empty-store
view and nothing raises, except that the raw byte figures of getStats
(actualStorageSize, and hence the usage percent) still reflect the
corrupt content; the age cleanup leaves the slot untouched (nothing
parses, so nothing is deleted); and a store starts from the empty map,
replacing the corrupt content when its write fits the quota and leaving
it in place with a false result otherwise. -/
theorem corrupt_state_behavior (n : Nat) (u : String) (e : LocalImageData)
    (quota now maxAge : Nat) :
    getStoredImages (Cell.corrupt n) = [] ∧
    getStoredImage (Cell.corrupt n) u = none ∧
    getCurrentStorageSize (Cell.corrupt n) = 0 ∧
    (getStorageStats (Cell.corrupt n)).imageCount = 0 ∧
    (getStorageStats (Cell.corrupt n)).totalSize = 0 ∧
    (getStorageStats (Cell.corrupt n)).oldestImage = none ∧
    (getStorageStats (Cell.corrupt n)).actualStorageSize = n ∧
    cleanupOldImages quota now maxAge (Cell.corrupt n) = Cell.corrupt n ∧
    storeImage quota now (Cell.corrupt n) e
      = (if mapJsonLen (insertEntry [] e) ≤ quota
         then (Cell.valid (insertEntry [] e), true)
         else (Cell.corrupt n, false)) := by
  have hclean : ∀ a, cleanupOldImages quota now a (Cell.corrupt n)
      = Cell.corrupt n := by
    intro a
    simp [cleanupOldImages, getStoredImages]
  have hfree : ∀ t, freeUpSpace quota (Cell.corrupt n) t = Cell.corrupt n := by
    intro t
    simp [freeUpSpace, getStoredImages, sortEntries, sortStable, evictKeys]
  refine ⟨rfl, rfl, rfl, rfl, rfl, rfl, rfl, hclean _, ?_⟩
  by_cases hfit : mapJsonLen (insertEntry [] e) ≤ quota
  · simp [storeImage, setItemQ, getStoredImages, hfit]
  · simp [storeImage, setItemQ, getStoredImages, hfit, hclean, hfree]

/-- C10: getStats mutates nothing — the cell after the call is the cell
before — its usage percent is the actual persisted byte length over the
budget times 100 rounded to one decimal, and a fresh empty store reports
zero entries, null oldest and newest timestamps, and zero percent. -/
theorem getStats_pure_and_empty (st : Cell) :
    (getStorageStatsOp st).2 = st ∧
    (getStorageStatsOp st).1.storageUsagePercent
      = round1 ((getActualStorageSize st : ℚ) / (MAX_STORAGE_SIZE : ℚ) * 100) ∧
    (getStorageStatsOp Cell.empty).1.imageCount = 0 ∧
    (getStorageStatsOp Cell.empty).1.oldestImage = none ∧
    (getStorageStatsOp Cell.empty).1.newestImage = none ∧
    (getStorageStatsOp Cell.empty).1.storageUsagePercent = 0 := by
  refine ⟨rfl, rfl, rfl, rfl, rfl, ?_⟩
  norm_num [getStorageStatsOp, getStorageStats, getActualStorageSize, round1,
    MAX_STORAGE_SIZE, round_eq]

end MediaCache
